import Mathlib

/-!
Verification of the palette data model of `cursive-core/src/theme/palette.rs`.

The Rust source is embedded shallowly:
* `EnumMap<PaletteColor, Color>` (a total map over a fieldless enum) becomes a
  Lean function `PaletteColor → Color`;
* `HashMap<String, PaletteNode>` becomes an association list with
  insert-or-overwrite (`mapInsert`) and lookup (`mapGet`); the list order
  stands for the map's (unspecified) iteration order, and theorems quantify
  over it;
* fallible operations (`set_basic_color` returning `Result<(), NoSuchColor>`
  while mutating `self`) become explicit state passing returning
  `Option Palette`;
* the TOML tree consumed by `iterate_toml` becomes the inductive `Toml`,
  and the external color-parsing capability `Color::parse` becomes an
  explicit function parameter `parse : String → Option Color`.
-/

/-- Modelled from the spec: the base colors under the opaque external `Color`
type (its source, `theme/color.rs`, is not among the provided files; the spec
treats `Color` as an opaque, equality-comparable value type). -/
inductive BaseColor where
  | Black
  | Red
  | Green
  | Yellow
  | Blue
  | Magenta
  | Cyan
  | White
deriving DecidableEq, Repr

/-- Modelled from the spec: the opaque external `Color` value type, "a
dark/light variant over a base color" as used by the default-palette
contract; this development only compares colors for equality. -/
inductive Color where
  | Dark : BaseColor → Color
  | Light : BaseColor → Color
deriving DecidableEq, Repr

/-- `PaletteColor` from `palette.rs`: the closed enumeration of the 11
built-in color roles. -/
inductive PaletteColor where
  | Background
  | Shadow
  | View
  | Primary
  | Secondary
  | Tertiary
  | TitlePrimary
  | TitleSecondary
  | Highlight
  | HighlightInactive
  | HighlightText
deriving DecidableEq, Repr

/-- `PaletteNode` from `palette.rs`: a custom palette entry, either a single
color or a nested namespace (a map from names to further nodes, embedded as
an association list). -/
inductive PaletteNode where
  | Color : Color → PaletteNode
  | Namespace : List (String × PaletteNode) → PaletteNode

/-- Association-list lookup, embedding `HashMap::get`. -/
def mapGet : List (String × PaletteNode) → String → Option PaletteNode
  | [], _ => none
  | (k', v) :: rest, k => if k' = k then some v else mapGet rest k

/-- Association-list insert-or-overwrite, embedding `HashMap::insert`. -/
def mapInsert : List (String × PaletteNode) → String → PaletteNode → List (String × PaletteNode)
  | [], k, v => [(k, v)]
  | (k', v') :: rest, k, v =>
      if k' = k then (k, v) :: rest else (k', v') :: mapInsert rest k v

/-- `Palette` from `palette.rs`: a total `basic` mapping from roles to colors
plus the `custom` name-to-node mapping. -/
structure Palette where
  basic : PaletteColor → Color
  custom : List (String × PaletteNode)

/-- `impl FromStr for PaletteColor`: each role is named by exactly its
PascalCase spelling or its snake_case alias; anything else is an error
(embedded as `none` for `Err(NoSuchColor)`). -/
def PaletteColor.from_str (s : String) : Option PaletteColor :=
  if s = "Background" ∨ s = "background" then some .Background
  else if s = "Shadow" ∨ s = "shadow" then some .Shadow
  else if s = "View" ∨ s = "view" then some .View
  else if s = "Primary" ∨ s = "primary" then some .Primary
  else if s = "Secondary" ∨ s = "secondary" then some .Secondary
  else if s = "Tertiary" ∨ s = "tertiary" then some .Tertiary
  else if s = "TitlePrimary" ∨ s = "title_primary" then some .TitlePrimary
  else if s = "TitleSecondary" ∨ s = "title_secondary" then some .TitleSecondary
  else if s = "Highlight" ∨ s = "highlight" then some .Highlight
  else if s = "HighlightInactive" ∨ s = "highlight_inactive" then some .HighlightInactive
  else if s = "HighlightText" ∨ s = "highlight_text" then some .HighlightText
  else none

/-- `Index<PaletteColor> for Palette`: `palette[role]` reads `basic`. -/
def Palette.index (p : Palette) (c : PaletteColor) : Color :=
  p.basic c

/-- `IndexMut<PaletteColor> for Palette`: `palette[role] = color` overwrites
one entry of `basic`. -/
def Palette.indexSet (p : Palette) (r : PaletteColor) (c : Color) : Palette :=
  { p with basic := fun r' => if r' = r then c else p.basic r' }

/-- `Extend<(PaletteColor, Color)> for Palette`: bulk `palette[k] = v` in
iteration order; later entries for the same role win. -/
def Palette.extend (p : Palette) (pairs : List (PaletteColor × Color)) : Palette :=
  pairs.foldl (fun q kv => q.indexSet kv.1 kv.2) p

/-- `Palette::custom`: returns the custom color under `key`, `none` when the
key is absent or holds a `Namespace`. (Named `custom_color` here because the
Lean structure field is already called `custom`.) -/
def Palette.custom_color (p : Palette) (key : String) : Option Color :=
  match mapGet p.custom key with
  | some (PaletteNode.Color c) => some c
  | _ => none

/-- `Palette::set_basic_color`: strict role update, `none` for
`Err(NoSuchColor)` when the key names no role, otherwise the palette with
only `basic[role]` overwritten. -/
def Palette.set_basic_color (p : Palette) (key : String) (color : Color) : Option Palette :=
  (PaletteColor.from_str key).map fun c => p.indexSet c color

/-- `Palette::set_color`: dual dispatch; a key naming a role updates `basic`,
any other key inserts/overwrites `custom[key] = Color(color)`. -/
def Palette.set_color (p : Palette) (key : String) (color : Color) : Palette :=
  match p.set_basic_color key color with
  | some p' => p'
  | none => { p with custom := mapInsert p.custom key (PaletteNode.Color color) }

/-- `Palette::add_namespace`: inserts/overwrites
`custom[key] = Namespace(namespace)` wholesale. -/
def Palette.add_namespace (p : Palette) (key : String)
    (ns : List (String × PaletteNode)) : Palette :=
  { p with custom := mapInsert p.custom key (PaletteNode.Namespace ns) }

/-- One step of `Palette::merge`'s overlay loop: a `Color` entry goes through
`set_color`, a `Namespace` entry through `add_namespace`. -/
def Palette.mergeEntry (result : Palette) (kv : String × PaletteNode) : Palette :=
  match kv.2 with
  | PaletteNode.Color c => result.set_color kv.1 c
  | PaletteNode.Namespace m => result.add_namespace kv.1 m

/-- `Palette::merge`: clone `self`; when `custom[ns]` is a `Namespace`,
overlay each of its entries onto the clone in iteration order; otherwise
return the clone unchanged. -/
def Palette.merge (p : Palette) (ns : String) : Palette :=
  match mapGet p.custom ns with
  | some (PaletteNode.Namespace pal) => pal.foldl Palette.mergeEntry p
  | _ => p

/-- `impl Default for Palette`: the fixed default `basic` table and empty
`custom`. -/
def Palette.defaultPalette : Palette :=
  { basic := fun r =>
      match r with
      | .Background => .Dark .Blue
      | .Shadow => .Dark .Black
      | .View => .Dark .White
      | .Primary => .Dark .Black
      | .Secondary => .Dark .Blue
      | .Tertiary => .Light .White
      | .TitlePrimary => .Dark .Red
      | .TitleSecondary => .Light .Blue
      | .Highlight => .Dark .Red
      | .HighlightInactive => .Dark .Blue
      | .HighlightText => .Dark .White
  , custom := [] }

mutual
/-- The generic structured-config tree walked by `iterate_toml`: a node is a
string scalar, an array, a table of named nodes, or some other kind (number,
boolean, ...). Tables carry their entries in iteration order. -/
inductive Toml where
  | str : String → Toml
  | arr : List Toml → Toml
  | table : TomlTable → Toml
  | other : Toml

/-- A table's named entries, in iteration order. -/
inductive TomlTable where
  | nil : TomlTable
  | cons : String → Toml → TomlTable → TomlTable
end

/-- `toml::Value::as_str`: `some` exactly on string scalars. -/
def Toml.as_str : Toml → Option String
  | .str s => some s
  | _ => none

/-- The entries of a table as a plain list of key/node pairs. -/
def TomlTable.toList : TomlTable → List (String × Toml)
  | .nil => []
  | .cons k v rest => (k, v) :: rest.toList

mutual
/-- The per-node half of `iterate_toml`, parameterised by the external color
parser: a table yields a `Namespace` of its surviving children; an array
yields the first element that is a string and parses; a string yields its
parse; any other kind yields nothing (the Rust code logs a warning and drops
the entry). -/
def tomlNode (parse : String → Option Color) : Toml → Option PaletteNode
  | .str color => (parse color).map PaletteNode.Color
  | .arr colors =>
      (((colors.filterMap Toml.as_str).filterMap parse).map PaletteNode.Color).head?
  | .table t => some (PaletteNode.Namespace (tomlEntries parse t))
  | .other => none

/-- The per-table half of `iterate_toml`: `flat_map` over the entries,
keeping `(key, node)` exactly when the child produced a node. -/
def tomlEntries (parse : String → Option Color) : TomlTable → List (String × PaletteNode)
  | .nil => []
  | .cons k v rest =>
      match tomlNode parse v with
      | some node => (k, node) :: tomlEntries parse rest
      | none => tomlEntries parse rest
end

/-- `Palette::load_toml`: walk the root table and install every produced
node through the palette's own routing (`set_color` for colors,
`add_namespace` for namespaces). -/
def Palette.load_toml (p : Palette) (parse : String → Option Color)
    (table : TomlTable) : Palette :=
  (tomlEntries parse table).foldl
    (fun q kv =>
      match kv.2 with
      | PaletteNode.Color c => q.set_color kv.1 c
      | PaletteNode.Namespace m => q.add_namespace kv.1 m)
    p

/-- The mutating operations of the public `Palette` interface, for stating
properties over every reachable palette. -/
inductive Op where
  | set_color : String → Color → Op
  | set_basic_color : String → Color → Op
  | add_namespace : String → List (String × PaletteNode) → Op
  | extend : List (PaletteColor × Color) → Op
  | merge : String → Op

/-- Apply one operation; a failing `set_basic_color` leaves the palette
unchanged, as the Rust mutation only happens on `Ok`. -/
def applyOp (p : Palette) : Op → Palette
  | .set_color k c => p.set_color k c
  | .set_basic_color k c => (p.set_basic_color k c).getD p
  | .add_namespace k m => p.add_namespace k m
  | .extend pairs => p.extend pairs
  | .merge ns => p.merge ns

/-- Run a sequence of operations from the default palette: every palette a
client can construct through the public interface arises this way. -/
def runOps (ops : List Op) : Palette :=
  ops.foldl applyOp Palette.defaultPalette

/-- The 22 exact spellings accepted by `PaletteColor::from_str`: each role's
PascalCase name and its snake_case alias. -/
def roleSpellings : List String :=
  ["Background", "background", "Shadow", "shadow", "View", "view",
   "Primary", "primary", "Secondary", "secondary", "Tertiary", "tertiary",
   "TitlePrimary", "title_primary", "TitleSecondary", "title_secondary",
   "Highlight", "highlight", "HighlightInactive", "highlight_inactive",
   "HighlightText", "highlight_text"]

/-- Invariant of reachable palettes: no key that names a built-in role is
mapped to a `Color` node in `custom` (role-named keys always route to
`basic`, so at most a `Namespace` can sit under such a key). -/
def roleKeyFree (p : Palette) : Prop :=
  ∀ key c, (PaletteColor.from_str key).isSome →
    mapGet p.custom key ≠ some (PaletteNode.Color c)

/-- A concrete stand-in for the external color parser, for evaluating the
builder on the spec's example inputs: recognises only `"red"`. -/
def testParse : String → Option Color := fun s =>
  if s = "red" then some (Color.Dark .Red) else none

/-! ## Association-list lemmas -/

theorem mapGet_mapInsert_self (m : List (String × PaletteNode)) (k : String) (v : PaletteNode) :
    mapGet (mapInsert m k v) k = some v := by
  induction m with
  | nil => simp [mapInsert, mapGet]
  | cons kv rest ih =>
      obtain ⟨k', v'⟩ := kv
      by_cases h : k' = k <;> simp [mapInsert, mapGet, h, ih]

theorem mapGet_mapInsert_ne (m : List (String × PaletteNode)) (k k' : String)
    (v : PaletteNode) (h : k' ≠ k) : mapGet (mapInsert m k v) k' = mapGet m k' := by
  induction m with
  | nil => simp [mapInsert, mapGet, Ne.symm h]
  | cons kv rest ih =>
      obtain ⟨k'', v''⟩ := kv
      by_cases h2 : k'' = k <;> by_cases h3 : k'' = k' <;>
        simp_all [mapInsert, mapGet, Ne.symm h]

theorem mapGet_eq_none_forall (m : List (String × PaletteNode)) (n : String)
    (h : mapGet m n = none) : ∀ kv ∈ m, kv.1 ≠ n := by
  induction m with
  | nil => simp
  | cons kv' rest ih =>
      obtain ⟨k', v'⟩ := kv'
      by_cases he : k' = n
      · rw [mapGet, if_pos he] at h
        exact absurd h (by simp)
      · rw [mapGet, if_neg he] at h
        intro kv hm
        rcases List.mem_cons.mp hm with h1 | h2
        · rw [h1]; exact he
        · exact ih h kv h2

/-! ## Routing and frame lemmas for the palette operations -/

theorem set_color_of_role (p : Palette) (key : String) (color : Color) (r : PaletteColor)
    (h : PaletteColor.from_str key = some r) :
    p.set_color key color = p.indexSet r color := by
  simp [Palette.set_color, Palette.set_basic_color, h]

theorem set_color_of_not_role (p : Palette) (key : String) (color : Color)
    (h : PaletteColor.from_str key = none) :
    p.set_color key color =
      { p with custom := mapInsert p.custom key (PaletteNode.Color color) } := by
  simp [Palette.set_color, Palette.set_basic_color, h]

theorem extend_custom (p : Palette) (pairs : List (PaletteColor × Color)) :
    (p.extend pairs).custom = p.custom := by
  induction pairs generalizing p with
  | nil => rfl
  | cons kv rest ih =>
      show ((rest.foldl (fun q kv => q.indexSet kv.1 kv.2) (p.indexSet kv.1 kv.2))).custom
        = p.custom
      exact ih (p.indexSet kv.1 kv.2)

/-! ## The role-key invariant over reachable palettes -/

theorem roleKeyFree_set_color (p : Palette) (h : roleKeyFree p) (k : String) (c : Color) :
    roleKeyFree (p.set_color k c) := by
  cases hf : PaletteColor.from_str k with
  | some r =>
      rw [set_color_of_role p k c r hf]
      exact h
  | none =>
      rw [set_color_of_not_role p k c hf]
      intro key c' hk
      have hne : key ≠ k := by
        intro he
        rw [he, hf] at hk
        simp at hk
      rw [show ({ p with custom := mapInsert p.custom k (PaletteNode.Color c) } : Palette).custom
        = mapInsert p.custom k (PaletteNode.Color c) from rfl]
      rw [mapGet_mapInsert_ne p.custom k key (PaletteNode.Color c) hne]
      exact h key c' hk

theorem roleKeyFree_add_namespace (p : Palette) (h : roleKeyFree p) (k : String)
    (m : List (String × PaletteNode)) : roleKeyFree (p.add_namespace k m) := by
  intro key c hk
  by_cases he : key = k
  · subst he
    rw [show (p.add_namespace key m).custom = mapInsert p.custom key (PaletteNode.Namespace m)
      from rfl]
    rw [mapGet_mapInsert_self]
    simp
  · rw [show (p.add_namespace k m).custom = mapInsert p.custom k (PaletteNode.Namespace m)
      from rfl]
    rw [mapGet_mapInsert_ne p.custom k key (PaletteNode.Namespace m) he]
    exact h key c hk

theorem roleKeyFree_mergeEntry (p : Palette) (h : roleKeyFree p) (kv : String × PaletteNode) :
    roleKeyFree (p.mergeEntry kv) := by
  obtain ⟨k, v⟩ := kv
  cases v with
  | Color c => exact roleKeyFree_set_color p h k c
  | Namespace m => exact roleKeyFree_add_namespace p h k m

theorem roleKeyFree_foldl_mergeEntry (l : List (String × PaletteNode)) (p : Palette)
    (h : roleKeyFree p) : roleKeyFree (l.foldl Palette.mergeEntry p) := by
  induction l generalizing p with
  | nil => exact h
  | cons kv rest ih =>
      rw [List.foldl_cons]
      exact ih _ (roleKeyFree_mergeEntry p h kv)

theorem roleKeyFree_merge (p : Palette) (h : roleKeyFree p) (ns : String) :
    roleKeyFree (p.merge ns) := by
  unfold Palette.merge
  cases hg : mapGet p.custom ns with
  | none => exact h
  | some node =>
      cases node with
      | Color c => exact h
      | Namespace pal => exact roleKeyFree_foldl_mergeEntry pal p h

theorem roleKeyFree_applyOp (p : Palette) (op : Op) (h : roleKeyFree p) :
    roleKeyFree (applyOp p op) := by
  cases op with
  | set_color k c => exact roleKeyFree_set_color p h k c
  | set_basic_color k c =>
      show roleKeyFree ((p.set_basic_color k c).getD p)
      unfold Palette.set_basic_color
      cases PaletteColor.from_str k with
      | none => exact h
      | some r => exact h
  | add_namespace k m => exact roleKeyFree_add_namespace p h k m
  | extend pairs =>
      intro key c hk
      have hcust := extend_custom p pairs
      rw [show applyOp p (Op.extend pairs) = p.extend pairs from rfl]
      rw [hcust]
      exact h key c hk
  | merge ns => exact roleKeyFree_merge p h ns

theorem roleKeyFree_runOps (ops : List Op) : roleKeyFree (runOps ops) := by
  suffices hsuff : ∀ p, roleKeyFree p → roleKeyFree (ops.foldl applyOp p) by
    refine hsuff Palette.defaultPalette ?_
    intro key c _
    simp [Palette.defaultPalette, mapGet]
  induction ops with
  | nil => exact fun p h => h
  | cons op rest ih =>
      intro p h
      rw [List.foldl_cons]
      exact ih _ (roleKeyFree_applyOp p op h)

theorem custom_color_eq_none_of_roleKeyFree (p : Palette) (h : roleKeyFree p) (key : String)
    (hk : (PaletteColor.from_str key).isSome) : p.custom_color key = none := by
  cases hg : mapGet p.custom key with
  | none => simp [Palette.custom_color, hg]
  | some node =>
      cases node with
      | Color c => exact absurd hg (h key c hk)
      | Namespace m => simp [Palette.custom_color, hg]

/-! ## Merge frame lemmas -/

theorem mergeEntry_custom_mapGet_ne (p : Palette) (kv : String × PaletteNode) (n : String)
    (h : kv.1 ≠ n) : mapGet (p.mergeEntry kv).custom n = mapGet p.custom n := by
  obtain ⟨k, v⟩ := kv
  cases v with
  | Color c =>
      show mapGet (p.set_color k c).custom n = mapGet p.custom n
      cases hf : PaletteColor.from_str k with
      | some r =>
          rw [set_color_of_role p k c r hf]
          rfl
      | none =>
          rw [set_color_of_not_role p k c hf]
          exact mapGet_mapInsert_ne p.custom k n (PaletteNode.Color c) (Ne.symm h)
  | Namespace m =>
      show mapGet (p.add_namespace k m).custom n = mapGet p.custom n
      exact mapGet_mapInsert_ne p.custom k n (PaletteNode.Namespace m) (Ne.symm h)

theorem foldl_mergeEntry_mapGet_ne (l : List (String × PaletteNode)) (p : Palette)
    (n : String) (h : ∀ kv ∈ l, kv.1 ≠ n) :
    mapGet ((l.foldl Palette.mergeEntry p).custom) n = mapGet p.custom n := by
  induction l generalizing p with
  | nil => rfl
  | cons kv rest ih =>
      rw [List.foldl_cons]
      rw [ih _ (fun kv' hm => h kv' (List.mem_cons_of_mem _ hm))]
      exact mergeEntry_custom_mapGet_ne p kv n (h kv (List.mem_cons_self _ _))

/-! ## Spelling characterisation of role names -/

set_option maxHeartbeats 1600000 in
theorem from_str_eq_none_iff (s : String) :
    PaletteColor.from_str s = none ↔ s ∉ roleSpellings := by
  constructor
  · intro h hmem
    rw [roleSpellings] at hmem
    simp only [List.mem_cons, List.not_mem_nil, or_false] at hmem
    rcases hmem with h1|h1|h1|h1|h1|h1|h1|h1|h1|h1|h1|h1|h1|h1|h1|h1|h1|h1|h1|h1|h1|h1 <;>
      (subst h1; exact absurd h (by decide))
  · intro hmem
    have hlem : ∀ a b : String, s = a ∨ s = b → a ∈ roleSpellings → b ∈ roleSpellings → False := by
      intro a b hab ha hb
      rcases hab with h | h
      · exact hmem (by rw [h]; exact ha)
      · exact hmem (by rw [h]; exact hb)
    unfold PaletteColor.from_str
    split_ifs with h1 h2 h3 h4 h5 h6 h7 h8 h9 h10 h11
    · exact (hlem _ _ h1 (by decide) (by decide)).elim
    · exact (hlem _ _ h2 (by decide) (by decide)).elim
    · exact (hlem _ _ h3 (by decide) (by decide)).elim
    · exact (hlem _ _ h4 (by decide) (by decide)).elim
    · exact (hlem _ _ h5 (by decide) (by decide)).elim
    · exact (hlem _ _ h6 (by decide) (by decide)).elim
    · exact (hlem _ _ h7 (by decide) (by decide)).elim
    · exact (hlem _ _ h8 (by decide) (by decide)).elim
    · exact (hlem _ _ h9 (by decide) (by decide)).elim
    · exact (hlem _ _ h10 (by decide) (by decide)).elim
    · exact (hlem _ _ h11 (by decide) (by decide)).elim
    · rfl

/-! ## Builder lemmas -/

theorem filterMap_as_str_parse (parse : String → Option Color) (l : List Toml) :
    (l.filterMap Toml.as_str).filterMap parse =
      l.filterMap fun e => (Toml.as_str e).bind parse := by
  induction l with
  | nil => rfl
  | cons e es ih =>
      cases he : Toml.as_str e with
      | none => simp [List.filterMap_cons, he, ih]
      | some s => cases hp : parse s <;> simp [List.filterMap_cons, he, hp, ih]

theorem tomlEntries_eq_filterMap (parse : String → Option Color) :
    ∀ t : TomlTable, tomlEntries parse t =
      t.toList.filterMap fun kv => (tomlNode parse kv.2).map fun node => (kv.1, node)
  | .nil => rfl
  | .cons k v rest => by
      have ih := tomlEntries_eq_filterMap parse rest
      cases h : tomlNode parse v <;>
        simp [tomlEntries, TomlTable.toList, List.filterMap_cons, h, ih]

/-! ## Claim theorems -/

/-- C1 (counterexample): `set_color` does NOT match role names
case-insensitively. `"BACKGROUND"` is neither the PascalCase spelling
`"Background"` nor the snake_case alias `"background"`, so
`set_color("BACKGROUND", Light(Red))` lands in `custom` and leaves
`basic[Background]` at its default, contradicting the claim that any case
variant of a role spelling routes to `basic`. -/
theorem set_color_case_insensitive_counterexample :
    mapGet (Palette.defaultPalette.set_color "BACKGROUND" (Color.Light .Red)).custom
      "BACKGROUND" = some (PaletteNode.Color (Color.Light .Red)) ∧
    (Palette.defaultPalette.set_color "BACKGROUND" (Color.Light .Red)).basic
      .Background = Color.Dark .Blue :=
  ⟨rfl, rfl⟩

/-- C1 (amended): `set_color(name, color)` overwrites `basic[role]` exactly
when `name` matches a Role's PascalCase name or its snake_case alias as an
exact, case-sensitive string (i.e. when `PaletteColor::from_str` succeeds),
leaving `custom` untouched; otherwise it inserts/overwrites
`custom[name] = ColorValue(color)`, leaving `basic` untouched. -/
theorem set_color_exact_match_routing (p : Palette) (key : String) (color : Color) :
    (∀ r, PaletteColor.from_str key = some r →
      (p.set_color key color).basic r = color ∧
      (p.set_color key color).custom = p.custom) ∧
    (PaletteColor.from_str key = none →
      mapGet (p.set_color key color).custom key = some (PaletteNode.Color color) ∧
      (p.set_color key color).basic = p.basic) := by
  constructor
  · intro r hf
    rw [set_color_of_role p key color r hf]
    exact ⟨by simp [Palette.indexSet], rfl⟩
  · intro hf
    rw [set_color_of_not_role p key color hf]
    exact ⟨mapGet_mapInsert_self p.custom key (PaletteNode.Color color), rfl⟩

/-- Witness for the amended C1: `"background"` (exact snake_case) routes to
`basic`, while `"BACKGROUND"` (a case variant) routes to `custom`. -/
theorem set_color_exact_match_routing_witness :
    (Palette.defaultPalette.set_color "background" (Color.Light .Red)).basic
      .Background = Color.Light .Red ∧
    mapGet (Palette.defaultPalette.set_color "BACKGROUND" (Color.Light .Green)).custom
      "BACKGROUND" = some (PaletteNode.Color (Color.Light .Green)) :=
  ⟨((set_color_exact_match_routing Palette.defaultPalette "background"
      (Color.Light .Red)).1 .Background rfl).1,
   ((set_color_exact_match_routing Palette.defaultPalette "BACKGROUND"
      (Color.Light .Green)).2 rfl).1⟩

/-- C2: merging a namespace whose `"a"` entry is itself a namespace installs
that nested namespace wholesale under `custom["a"]`, so a pre-existing
`custom["a"] = Namespace({"y": Color(c2)})` is replaced by
`Namespace({"x": Color(c1)})` and the key `"y"` does not survive. -/
theorem merge_namespace_shallow_replace (p : Palette) (c1 c2 : Color)
    (htheme : mapGet p.custom "theme" = some (PaletteNode.Namespace
      [("a", PaletteNode.Namespace [("x", PaletteNode.Color c1)])]))
    (_ha : mapGet p.custom "a" = some (PaletteNode.Namespace
      [("y", PaletteNode.Color c2)])) :
    mapGet (p.merge "theme").custom "a" =
      some (PaletteNode.Namespace [("x", PaletteNode.Color c1)]) := by
  simp only [Palette.merge, htheme, List.foldl_cons, List.foldl_nil,
    Palette.mergeEntry, Palette.add_namespace]
  exact mapGet_mapInsert_self p.custom "a" _

/-- Witness for C2 at a concrete palette: the default `basic` table with
`custom = {"theme": {"a": {"x": Dark Green}}, "a": {"y": Dark Cyan}}`. -/
theorem merge_namespace_shallow_replace_witness :
    mapGet ((Palette.mk Palette.defaultPalette.basic
      [("theme", PaletteNode.Namespace
          [("a", PaletteNode.Namespace [("x", PaletteNode.Color (Color.Dark .Green))])]),
       ("a", PaletteNode.Namespace [("y", PaletteNode.Color (Color.Dark .Cyan))])]).merge
      "theme").custom "a" =
      some (PaletteNode.Namespace [("x", PaletteNode.Color (Color.Dark .Green))]) :=
  merge_namespace_shallow_replace _ (Color.Dark .Green) (Color.Dark .Cyan) rfl rfl

/-- C3: for every sequence of public mutating operations and every role, the
palette reached from the default one still resolves the role to a color:
the `basic` mapping is total (a Lean function over the closed `PaletteColor`
enumeration, embedding the total `EnumMap`), and no operation can remove an
entry. -/
theorem lookup_role_total (ops : List Op) (r : PaletteColor) :
    ∃ c : Color, (runOps ops).index r = c :=
  ⟨(runOps ops).index r, rfl⟩

/-- C4: the default palette has no custom entries and exactly the fixed
`basic` table from `impl Default for Palette` (note the code, and hence this
table, has `TitleSecondary => Light(Blue)`, diverging from the stale doc
comment above the Rust impl). -/
theorem default_palette_contract :
    Palette.defaultPalette.custom = [] ∧
    Palette.defaultPalette.index .Background = Color.Dark .Blue ∧
    Palette.defaultPalette.index .Shadow = Color.Dark .Black ∧
    Palette.defaultPalette.index .View = Color.Dark .White ∧
    Palette.defaultPalette.index .Primary = Color.Dark .Black ∧
    Palette.defaultPalette.index .Secondary = Color.Dark .Blue ∧
    Palette.defaultPalette.index .Tertiary = Color.Light .White ∧
    Palette.defaultPalette.index .TitlePrimary = Color.Dark .Red ∧
    Palette.defaultPalette.index .TitleSecondary = Color.Light .Blue ∧
    Palette.defaultPalette.index .Highlight = Color.Dark .Red ∧
    Palette.defaultPalette.index .HighlightInactive = Color.Dark .Blue ∧
    Palette.defaultPalette.index .HighlightText = Color.Dark .White :=
  ⟨rfl, rfl, rfl, rfl, rfl, rfl, rfl, rfl, rfl, rfl, rfl, rfl⟩

/-- C5: on every palette reachable through the public interface, setting
`"Background"` updates the looked-up role color to `c`, and
`custom_color("Background")` on the result is `none`: the built-in alias
routes to `basic`, and a reachable palette never holds a `Color` node under
a role-named custom key. -/
theorem set_color_background_roundtrip (ops : List Op) (c : Color) :
    ((runOps ops).set_color "Background" c).index PaletteColor.Background = c ∧
    ((runOps ops).set_color "Background" c).custom_color "Background" = none := by
  have hf : PaletteColor.from_str "Background" = some PaletteColor.Background := rfl
  constructor
  · rw [set_color_of_role _ _ c _ hf]
    simp [Palette.index, Palette.indexSet]
  · exact custom_color_eq_none_of_roleKeyFree _
      (roleKeyFree_set_color _ (roleKeyFree_runOps ops) _ _) "Background" rfl

/-- C6: for an array node the builder takes the first element that is a
string and parses as a color, ignoring everything after it, and produces
nothing when no element parses; in particular (witness below)
`["not-a-color", "red"]` gives `ColorValue(red)` and
`["not-a-color", "also-not"]` gives nothing. -/
theorem toml_array_first_parsed (parse : String → Option Color) :
    (∀ (pre : List Toml) (s : String) (c : Color) (rest : List Toml),
      (∀ e ∈ pre, (Toml.as_str e).bind parse = none) → parse s = some c →
      tomlNode parse (Toml.arr (pre ++ Toml.str s :: rest)) =
        some (PaletteNode.Color c)) ∧
    (∀ es : List Toml, (∀ e ∈ es, (Toml.as_str e).bind parse = none) →
      tomlNode parse (Toml.arr es) = none) := by
  constructor
  · intro pre s c rest hpre hc
    simp only [tomlNode]
    rw [filterMap_as_str_parse, List.filterMap_append,
      List.filterMap_eq_nil_iff.mpr hpre]
    simp [List.filterMap_cons, Toml.as_str, hc]
  · intro es hes
    simp only [tomlNode]
    rw [filterMap_as_str_parse, List.filterMap_eq_nil_iff.mpr hes]
    rfl

/-- Witness for C6: the spec's two example lists, under a parser that
recognises exactly `"red"`. -/
theorem toml_array_first_parsed_witness :
    tomlNode testParse (Toml.arr [Toml.str "not-a-color", Toml.str "red"]) =
      some (PaletteNode.Color (Color.Dark .Red)) ∧
    tomlNode testParse (Toml.arr [Toml.str "not-a-color", Toml.str "also-not"]) =
      none :=
  ⟨(toml_array_first_parsed testParse).1 [Toml.str "not-a-color"] "red"
      (Color.Dark .Red) []
      (by intro e he; rw [List.mem_singleton.mp he]; rfl) rfl,
   (toml_array_first_parsed testParse).2
      [Toml.str "not-a-color", Toml.str "also-not"]
      (by
        intro e he
        rcases List.mem_cons.mp he with h | h
        · rw [h]; rfl
        · rw [List.mem_singleton.mp h]; rfl)⟩

/-- C7: a table node always builds to `some Namespace` (even when every
child was dropped and the namespace is empty), the namespace's entries are
exactly the children that built to something, and an unrecognized node kind
builds to nothing — the builder is a total function, so no malformed leaf
can abort the load. -/
theorem toml_table_always_namespace (parse : String → Option Color) (t : TomlTable) :
    tomlNode parse (Toml.table t) =
      some (PaletteNode.Namespace (tomlEntries parse t)) ∧
    tomlEntries parse t =
      t.toList.filterMap (fun kv => (tomlNode parse kv.2).map fun node => (kv.1, node)) ∧
    tomlNode parse Toml.other = none :=
  ⟨rfl, tomlEntries_eq_filterMap parse t, rfl⟩

/-- C8: `merge(n)` when `custom[n]` is absent, or present but a `ColorValue`
rather than a `Namespace`, returns the palette unchanged. -/
theorem merge_absent_or_color_identity (p : Palette) (n : String)
    (h : mapGet p.custom n = none ∨
      ∃ c, mapGet p.custom n = some (PaletteNode.Color c)) :
    p.merge n = p := by
  unfold Palette.merge
  rcases h with h | ⟨c, h⟩ <;> rw [h]

/-- Witness for C8: merging an absent namespace name on the default
palette. -/
theorem merge_absent_or_color_identity_witness :
    Palette.defaultPalette.merge "nope" = Palette.defaultPalette :=
  merge_absent_or_color_identity Palette.defaultPalette "nope" (Or.inl rfl)

/-- C9: `set_basic_color(name, color)` fails exactly when `name` is none of
the 22 exact role spellings (11 PascalCase names and their snake_case
aliases); on success it changes only `basic[role]`; and the PascalCase and
snake_case spellings of a role produce identical resulting palettes. -/
theorem set_basic_color_strict (p : Palette) (key : String) (color : Color) :
    (p.set_basic_color key color = none ↔ key ∉ roleSpellings) ∧
    (∀ q, p.set_basic_color key color = some q →
      q.custom = p.custom ∧
      ∃ r, PaletteColor.from_str key = some r ∧ q.basic r = color ∧
        ∀ r', r' ≠ r → q.basic r' = p.basic r') ∧
    p.set_basic_color "TitlePrimary" color = some (p.indexSet .TitlePrimary color) ∧
    p.set_basic_color "title_primary" color = some (p.indexSet .TitlePrimary color) := by
  refine ⟨?_, ?_, rfl, rfl⟩
  · rw [← from_str_eq_none_iff]
    unfold Palette.set_basic_color
    cases PaletteColor.from_str key <;> simp
  · intro q hq
    unfold Palette.set_basic_color at hq
    cases hf : PaletteColor.from_str key with
    | none => rw [hf] at hq; exact absurd hq (by simp)
    | some r =>
        rw [hf] at hq
        simp only [Option.map_some', Option.some.injEq] at hq
        subst hq
        refine ⟨rfl, r, rfl, by simp [Palette.indexSet], ?_⟩
        intro r' hne
        simp [Palette.indexSet, hne]

/-- Witness for C9: an unknown name fails, and the two spellings of
`TitlePrimary` agree, on the default palette. -/
theorem set_basic_color_strict_witness :
    Palette.defaultPalette.set_basic_color "nope" (Color.Dark .Red) = none ∧
    Palette.defaultPalette.set_basic_color "TitlePrimary" (Color.Dark .Green) =
      Palette.defaultPalette.set_basic_color "title_primary" (Color.Dark .Green) := by
  refine ⟨?_, ?_⟩
  · exact (set_basic_color_strict Palette.defaultPalette "nope"
      (Color.Dark .Red)).1.mpr (by decide)
  · rw [(set_basic_color_strict Palette.defaultPalette "x" (Color.Dark .Green)).2.2.1,
      (set_basic_color_strict Palette.defaultPalette "x" (Color.Dark .Green)).2.2.2]

/-- C10: merging a namespace whose own mapping does not contain its own name
leaves `custom[n]` bound to that same namespace in the result: `merge`
reads the namespace, it does not consume it. -/
theorem merge_preserves_source_namespace (p : Palette) (n : String)
    (m : List (String × PaletteNode))
    (hsrc : mapGet p.custom n = some (PaletteNode.Namespace m))
    (hself : mapGet m n = none) :
    mapGet (p.merge n).custom n = some (PaletteNode.Namespace m) := by
  simp only [Palette.merge, hsrc]
  rw [foldl_mergeEntry_mapGet_ne m p n (mapGet_eq_none_forall m n hself)]
  exact hsrc

/-- Witness for C10: a concrete palette whose `"ns"` namespace holds one
color entry under `"x"`. -/
theorem merge_preserves_source_namespace_witness :
    mapGet ((Palette.mk Palette.defaultPalette.basic
      [("ns", PaletteNode.Namespace [("x", PaletteNode.Color (Color.Dark .Green))])]).merge
      "ns").custom "ns" =
      some (PaletteNode.Namespace [("x", PaletteNode.Color (Color.Dark .Green))]) :=
  merge_preserves_source_namespace _ "ns"
    [("x", PaletteNode.Color (Color.Dark .Green))] rfl rfl
